import Mathlib

/-!
Verification development for the cbor_py codec (src/cbor/cbor.py).

The Python module is shallowly embedded over byte lists (`List Nat`, each
entry a byte value).  Pure functions become Lean functions; Python
exceptions become explicit `Except` errors; the recursive-descent decoder
is made total with a fuel parameter (the entry point supplies fuel larger
than the input length, which every recursive call strictly shrinks past,
so the fuel error is unreachable on the executions the theorems describe).

Notes on the translation:
- Python floats are carried by their raw IEEE-754 byte representation:
  the codec never computes with floats, it only packs and unpacks their
  bytes, so a `Value.float64` holds the 8 big-endian payload bytes.
- Text strings are carried by their UTF-8 bytes, exactly as the
  specification data model states; the utf8 decode step is the identity
  on that representation.  Where the source iterates the decoded unicode
  string character by character (the bignum tags over a text payload),
  the model iterates these bytes, which coincides with the source for
  one-byte (ASCII) characters.
- The source is Python 2 (unicode, basestring, long, iteritems, xrange)
  and its buffer is a Py2 str, since the decoder applies ord to the
  bytes it reads.  The chunk loop of loads_bytes reads its chunk byte
  without ord, so there the byte is a one-character str: comparing it
  to an integer is always false and using it in a bitwise AND raises
  TypeError.  The model keeps that behavior.
- Bit operations on byte values are written with division and modulus:
  for a byte b, the source expression b AND 0xE0 is b / 32 * 32, b AND
  0x1F is b % 32, and OR of a multiple of 32 with a value below 32 is
  addition.
- Python dict assignment is modeled on ordered association lists by
  `dictInsert` (replace the value at an existing key, else append).
- Python IndexError, struct.error and AssertionError on truncated or
  inconsistent input are all modeled as `DErr.malformed`; TypeError,
  from using a missing (None) auxiliary as a number or from the bitwise
  AND on the un-ord-ed chunk byte in the chunk loop, is
  `DErr.typeError`.
-/

namespace CborPy

/-- Errors the encoder can raise: the value-too-big Exception in
_encode_type_num, and the unknown-type Exception at the end of dumps. -/
inductive EncErr where
  | valueTooBig
  | unsupportedType
  deriving DecidableEq

/-- Errors the decoder can raise.  `malformed` stands for IndexError,
struct.error, AssertionError and the unknown-tag-7 Exception;
`unsupportedFloat16` for the FLOAT16 Exception; `recursionLimit` for the
depth-limit Exception; `typeError` for Python TypeError (a None
auxiliary used as a number, or the str-and-int bitwise AND on the
un-ord-ed chunk byte); `fuelExhausted` is an artifact of the fueled
embedding and is unreachable when fuel exceeds the input length. -/
inductive DErr where
  | malformed
  | unsupportedFloat16
  | recursionLimit
  | typeError
  | fuelExhausted
  deriving DecidableEq

/-- The in-memory value graph the codec converts to and from.  `float64`
and `float32` carry raw IEEE-754 payload bytes; `text` carries UTF-8
bytes; `tagged` is the Tag class (its tag may be absent when decoded from
an indefinite-length tag header); `datetime` and `regex` stand for the
library objects produced by tag interpretation, carrying their payload. -/
inductive Value where
  | null
  | bool (b : Bool)
  | int (n : Int)
  | float64 (bs : List Nat)
  | float32 (bs : List Nat)
  | bytes (bs : List Nat)
  | text (bs : List Nat)
  | array (xs : List Value)
  | map (ps : List (Value × Value))
  | tagged (t : Option Nat) (v : Value)
  | datetime (v : Value)
  | regex (v : Value)

mutual

/-- Structural equality test on values (Python == on the decoded
objects). -/
def Value.beq : Value → Value → Bool
  | .null, .null => true
  | .bool a, .bool b => a == b
  | .int a, .int b => a == b
  | .float64 a, .float64 b => a == b
  | .float32 a, .float32 b => a == b
  | .bytes a, .bytes b => a == b
  | .text a, .text b => a == b
  | .array xs, .array ys => Value.beqList xs ys
  | .map ps, .map qs => Value.beqPairs ps qs
  | .tagged t a, .tagged u b => t == u && Value.beq a b
  | .datetime a, .datetime b => Value.beq a b
  | .regex a, .regex b => Value.beq a b
  | _, _ => false

def Value.beqList : List Value → List Value → Bool
  | [], [] => true
  | x :: xs, y :: ys => Value.beq x y && Value.beqList xs ys
  | _, _ => false

def Value.beqPairs : List (Value × Value) → List (Value × Value) → Bool
  | [], [] => true
  | (k1, v1) :: ps, (k2, v2) :: qs =>
    Value.beq k1 k2 && Value.beq v1 v2 && Value.beqPairs ps qs
  | _, _ => false

end

mutual

theorem Value.beq_iff_eq : ∀ (a b : Value), Value.beq a b = true ↔ a = b
  | .null, b => by cases b <;> simp [Value.beq]
  | .bool a, b => by cases b <;> simp [Value.beq]
  | .int a, b => by cases b <;> simp [Value.beq]
  | .float64 a, b => by cases b <;> simp [Value.beq]
  | .float32 a, b => by cases b <;> simp [Value.beq]
  | .bytes a, b => by cases b <;> simp [Value.beq]
  | .text a, b => by cases b <;> simp [Value.beq]
  | .array xs, b => by
    cases b <;> simp [Value.beq, Value.beqList_iff_eq xs]
  | .map ps, b => by
    cases b <;> simp [Value.beq, Value.beqPairs_iff_eq ps]
  | .tagged t a, b => by
    cases b <;> simp [Value.beq, Value.beq_iff_eq a]
  | .datetime a, b => by
    cases b <;> simp [Value.beq, Value.beq_iff_eq a]
  | .regex a, b => by
    cases b <;> simp [Value.beq, Value.beq_iff_eq a]

theorem Value.beqList_iff_eq : ∀ (xs ys : List Value),
    Value.beqList xs ys = true ↔ xs = ys
  | [], ys => by cases ys <;> simp [Value.beqList]
  | x :: xs, ys => by
    cases ys with
    | nil => simp [Value.beqList]
    | cons y ys =>
      simp only [Value.beqList, Bool.and_eq_true, List.cons.injEq]
      rw [Value.beq_iff_eq x y, Value.beqList_iff_eq xs ys]

theorem Value.beqPairs_iff_eq : ∀ (ps qs : List (Value × Value)),
    Value.beqPairs ps qs = true ↔ ps = qs
  | [], qs => by cases qs <;> simp [Value.beqPairs]
  | (k1, v1) :: ps, qs => by
    cases qs with
    | nil => simp [Value.beqPairs]
    | cons q qs =>
      obtain ⟨k2, v2⟩ := q
      simp only [Value.beqPairs, Bool.and_eq_true, List.cons.injEq,
        Prod.mk.injEq]
      rw [Value.beq_iff_eq k1 k2, Value.beq_iff_eq v1 v2,
        Value.beqPairs_iff_eq ps qs]

end

instance : DecidableEq Value := fun a b =>
  decidable_of_iff (Value.beq a b = true) (Value.beq_iff_eq a b)

/-- _dumps_bignum_to_bytearray: big-endian bytes of a nonnegative
integer, empty for zero (the while loop peeling 8 bits at a time). -/
def _dumps_bignum_to_bytearray (val : Nat) : List Nat :=
  if val = 0 then []
  else _dumps_bignum_to_bytearray (val / 256) ++ [val % 256]

/-- The byte list of a bignum is never longer than the number itself. -/
theorem _dumps_bignum_to_bytearray_length_le (val : Nat) :
    (_dumps_bignum_to_bytearray val).length ≤ val := by
  induction val using Nat.strong_induction_on with
  | _ val ih =>
    rw [_dumps_bignum_to_bytearray]
    by_cases h : val = 0
    · simp [h]
    · have hlt : val / 256 < val := Nat.div_lt_self (by omega) (by omega)
      have := ih (val / 256) hlt
      simp only [h, if_false, List.length_append, List.length_cons,
        List.length_nil]
      omega

theorem _dumps_bignum_to_bytearray_length_lt (val : Nat)
    (h : 0xffffffffffffffff < val) :
    (_dumps_bignum_to_bytearray val).length < val := by
  rw [_dumps_bignum_to_bytearray]
  have h0 : ¬ val = 0 := by omega
  have hlt := _dumps_bignum_to_bytearray_length_le (val / 256)
  simp only [h0, if_false, List.length_append, List.length_cons,
    List.length_nil]
  omega

/-- _encode_type_num: header bytes for a primary type and auxiliary
value, choosing the smallest width class; negative-integer overflow falls
through to the tag-3 bignum encoding, any other overflow is the
value-too-big Exception. -/
def _encode_type_num (cbor_type : Nat) (val : Nat) : Except EncErr (List Nat) :=
  if val ≤ 23 then .ok [cbor_type + val]
  else if val ≤ 0xff then .ok [cbor_type + 24, val]
  else if val ≤ 0xffff then .ok [cbor_type + 25, val / 256, val % 256]
  else if val ≤ 0xffffffff then
    .ok [cbor_type + 26, val / 16777216, val / 65536 % 256, val / 256 % 256,
      val % 256]
  else if val ≤ 0xffffffffffffffff then
    .ok [cbor_type + 27, val / 72057594037927936, val / 281474976710656 % 256,
      val / 1099511627776 % 256, val / 4294967296 % 256, val / 16777216 % 256,
      val / 65536 % 256, val / 256 % 256, val % 256]
  else if cbor_type ≠ 0x20 then .error .valueTooBig
  else
    match _encode_type_num 0x40 (_dumps_bignum_to_bytearray val).length with
    | .ok h => .ok ((0xC0 + 3) :: h ++ _dumps_bignum_to_bytearray val)
    | .error e => .error e
termination_by val
decreasing_by
  exact _dumps_bignum_to_bytearray_length_lt val (by omega)

/-- dumps_int: native header for magnitudes within 64 bits, tag-2 bignum
above that, and the negative path through _encode_type_num. -/
def dumps_int (val : Int) : Except EncErr (List Nat) :=
  if 0 ≤ val then
    let v := val.toNat
    if v ≤ 23 then .ok [v]
    else if v ≤ 0xff then .ok [24, v]
    else if v ≤ 0xffff then .ok [25, v / 256, v % 256]
    else if v ≤ 0xffffffff then
      .ok [26, v / 16777216, v / 65536 % 256, v / 256 % 256, v % 256]
    else if v ≤ 0xffffffffffffffff then
      .ok [27, v / 72057594037927936, v / 281474976710656 % 256,
        v / 1099511627776 % 256, v / 4294967296 % 256, v / 16777216 % 256,
        v / 65536 % 256, v / 256 % 256, v % 256]
    else
      match _encode_type_num 0x40 (_dumps_bignum_to_bytearray v).length with
      | .ok h => .ok ((0xC0 + 2) :: h ++ _dumps_bignum_to_bytearray v)
      | .error e => .error e
  else
    _encode_type_num 0x20 (-1 - val).toNat

/-- dumps_float: the FLOAT64 marker followed by the 8 payload bytes. -/
def dumps_float (bs : List Nat) : List Nat := 0xFB :: bs

/-- dumps_bool. -/
def dumps_bool (b : Bool) : List Nat := if b then [0xF5] else [0xF4]

mutual

/-- dumps: dispatch on the value kind; unknown kinds (the Tag class,
datetime, regex, and the decoder-only float32) raise. -/
def dumps : Value → Except EncErr (List Nat)
  | .null => .ok [0xF6]
  | .bool b => .ok (dumps_bool b)
  | .bytes bs =>
    match _encode_type_num 0x40 bs.length with
    | .ok h => .ok (h ++ bs)
    | .error e => .error e
  | .text bs =>
    match _encode_type_num 0x60 bs.length with
    | .ok h => .ok (h ++ bs)
    | .error e => .error e
  | .array xs =>
    match _encode_type_num 0x80 xs.length with
    | .ok h =>
      match dumpsList xs with
      | .ok parts => .ok (h ++ parts)
      | .error e => .error e
    | .error e => .error e
  | .map ps =>
    match _encode_type_num 0xA0 ps.length with
    | .ok h =>
      match dumpsPairs ps with
      | .ok parts => .ok (h ++ parts)
      | .error e => .error e
    | .error e => .error e
  | .float64 bs => .ok (dumps_float bs)
  | .int n => dumps_int n
  | .float32 _ => .error .unsupportedType
  | .tagged _ _ => .error .unsupportedType
  | .datetime _ => .error .unsupportedType
  | .regex _ => .error .unsupportedType

/-- The element-by-element encoding loop of dumps_array. -/
def dumpsList : List Value → Except EncErr (List Nat)
  | [] => .ok []
  | x :: xs =>
    match dumps x with
    | .ok a =>
      match dumpsList xs with
      | .ok b => .ok (a ++ b)
      | .error e => .error e
    | .error e => .error e

/-- The key-then-value encoding loop of dumps_dict. -/
def dumpsPairs : List (Value × Value) → Except EncErr (List Nat)
  | [] => .ok []
  | (k, v) :: ps =>
    match dumps k with
    | .ok a =>
      match dumps v with
      | .ok b =>
        match dumpsPairs ps with
        | .ok c => .ok (a ++ b ++ c)
        | .error e => .error e
      | .error e => .error e
    | .error e => .error e

end

/-- _MAX_DEPTH from the source. -/
def _MAX_DEPTH : Nat := 100

/-- Read one byte of the buffer; running off the end is IndexError or
struct.error in Python, modeled as malformed input. -/
def byteAt (data : List Nat) (i : Nat) : Except DErr Nat :=
  match data[i]? with
  | some b => .ok b
  | none => .error .malformed

/-- _tag_aux: split a header byte into its major type (top three bits)
and info field (low five bits), and read the auxiliary value in the width
the info field selects.  `data` is the buffer suffix whose head is the
header byte `tb`.  Info 31 leaves the auxiliary absent; info 28 to 30 is
the failed bogus-tag assertion. -/
def _tag_aux (data : List Nat) (tb : Nat) :
    Except DErr (Nat × Nat × Option Nat × Nat) :=
  let tag := tb / 32 * 32
  let tag_aux := tb % 32
  if tag_aux ≤ 23 then .ok (tag, tag_aux, some tag_aux, 1)
  else if tag_aux = 24 then
    match byteAt data 1 with
    | .ok b => .ok (tag, tag_aux, some b, 2)
    | .error e => .error e
  else if tag_aux = 25 then
    match byteAt data 1, byteAt data 2 with
    | .ok b1, .ok b2 => .ok (tag, tag_aux, some (b1 * 256 + b2), 3)
    | .error e, _ => .error e
    | _, .error e => .error e
  else if tag_aux = 26 then
    match byteAt data 1, byteAt data 2, byteAt data 3, byteAt data 4 with
    | .ok b1, .ok b2, .ok b3, .ok b4 =>
      .ok (tag, tag_aux, some (b1 * 16777216 + b2 * 65536 + b3 * 256 + b4), 5)
    | .error e, _, _, _ => .error e
    | _, .error e, _, _ => .error e
    | _, _, .error e, _ => .error e
    | _, _, _, .error e => .error e
  else if tag_aux = 27 then
    match byteAt data 1, byteAt data 2, byteAt data 3, byteAt data 4,
        byteAt data 5, byteAt data 6, byteAt data 7, byteAt data 8 with
    | .ok b1, .ok b2, .ok b3, .ok b4, .ok b5, .ok b6, .ok b7, .ok b8 =>
      .ok (tag, tag_aux,
        some (b1 * 72057594037927936 + b2 * 281474976710656 +
          b3 * 1099511627776 + b4 * 4294967296 + b5 * 16777216 +
          b6 * 65536 + b7 * 256 + b8), 9)
    | .error e, _, _, _, _, _, _, _ => .error e
    | _, .error e, _, _, _, _, _, _ => .error e
    | _, _, .error e, _, _, _, _, _ => .error e
    | _, _, _, .error e, _, _, _, _ => .error e
    | _, _, _, _, .error e, _, _, _ => .error e
    | _, _, _, _, _, .error e, _, _ => .error e
    | _, _, _, _, _, _, .error e, _ => .error e
    | _, _, _, _, _, _, _, .error e => .error e
  else if tag_aux = 31 then .ok (tag, tag_aux, none, 1)
  else .error .malformed

/-- _bytes_to_biguint: big-endian accumulation. -/
def _bytes_to_biguint (bs : List Nat) : Nat :=
  bs.foldl (fun out ch => out * 256 + ch) 0

/-- tagify: promote a recognized tagged payload (1 timestamp, 2 unsigned
bignum, 3 negative bignum, 35 regex), pass every other tag number through
unchanged (including 0, whose date-string branch is an empty TODO).  The
datetime and regex library calls are modeled as opaque wrappers that
require the payload kind the library call requires.  _bytes_to_biguint
iterates its argument with ord, so it accepts a byte-string payload and
also a text payload (the decoded unicode characters; in the byte-level
text representation the accumulation runs over the bytes, which matches
the source for one-byte characters); any other payload raises TypeError
in the for loop. -/
def tagify (ob : Value) (aux : Option Nat) : Except DErr Value :=
  if aux = some 1 then
    match ob with
    | .int _ => .ok (.datetime ob)
    | .float64 _ => .ok (.datetime ob)
    | .float32 _ => .ok (.datetime ob)
    | .bool _ => .ok (.datetime ob)
    | _ => .error .typeError
  else if aux = some 2 then
    match ob with
    | .bytes bs => .ok (.int (_bytes_to_biguint bs))
    | .text bs => .ok (.int (_bytes_to_biguint bs))
    | _ => .error .typeError
  else if aux = some 3 then
    match ob with
    | .bytes bs => .ok (.int (-1 - _bytes_to_biguint bs))
    | .text bs => .ok (.int (-1 - _bytes_to_biguint bs))
    | _ => .error .typeError
  else if aux = some 35 then
    match ob with
    | .text _ => .ok (.regex ob)
    | .bytes _ => .ok (.regex ob)
    | _ => .error .typeError
  else .ok ob

/-- dictInsert: Python dict assignment on an ordered association list;
replace the value at an existing key, otherwise append the pair. -/
def dictInsert (ps : List (Value × Value)) (k v : Value) :
    List (Value × Value) :=
  match ps with
  | [] => [(k, v)]
  | (k1, v1) :: rest =>
    if k1 = k then (k1, v) :: rest else (k1, v1) :: dictInsert rest k v

/-- The chunk loop of loads_bytes, on the buffer suffix at the current
offset.  The source reads its chunk byte tb without ord (unlike the main
decoder), so with the Py2 str buffer tb is a one-character str: the
comparison of tb against the integer break constant is always false,
and _tag_aux then evaluates the bitwise AND of that str with an
integer, which raises TypeError.  The loop therefore raises on its
first iteration: IndexError (malformed) when the buffer is exhausted,
TypeError otherwise; it never concatenates a chunk, never recognizes a
break byte, and never reaches the mismatched-major-type assertion. -/
def loads_chunks (btag : Nat) (data : List Nat) :
    Except DErr (List Nat × Nat) :=
  match byteAt data 0 with
  | .error e => .error e
  | .ok _ => .error .typeError

/-- loads_bytes: definite length slices directly (a Python slice, which
silently clamps to the available bytes); indefinite length enters the
chunk loop. -/
def loads_bytes (data : List Nat) (aux : Option Nat) (btag : Nat) :
    Except DErr (List Nat × Nat) :=
  match aux with
  | some a => .ok (data.take a, a)
  | none => loads_chunks btag data

mutual

/-- _loads: the recursive-descent decoder, on the buffer suffix starting
at the current offset; returns the decoded object and the bytes read.
The depth check is at the top exactly as in the source, and exactly as in
the source every recursive call passes the default depth 0 and the
default returntags false. -/
def _loads (fuel : Nat) (data : List Nat) (depth : Nat)
    (returntags : Bool) : Except DErr (Value × Nat) :=
  match fuel with
  | 0 => .error .fuelExhausted
  | fuel + 1 =>
    if depth > _MAX_DEPTH then .error .recursionLimit
    else
      match byteAt data 0 with
      | .error e => .error e
      | .ok tb =>
        if tb = 0xF9 then .error .unsupportedFloat16
        else if tb = 0xFA then
          match byteAt data 1, byteAt data 2, byteAt data 3, byteAt data 4 with
          | .ok b1, .ok b2, .ok b3, .ok b4 => .ok (.float32 [b1, b2, b3, b4], 5)
          | .error e, _, _, _ => .error e
          | _, .error e, _, _ => .error e
          | _, _, .error e, _ => .error e
          | _, _, _, .error e => .error e
        else if tb = 0xFB then
          match byteAt data 1, byteAt data 2, byteAt data 3, byteAt data 4,
              byteAt data 5, byteAt data 6, byteAt data 7, byteAt data 8 with
          | .ok b1, .ok b2, .ok b3, .ok b4, .ok b5, .ok b6, .ok b7, .ok b8 =>
            .ok (.float64 [b1, b2, b3, b4, b5, b6, b7, b8], 9)
          | .error e, _, _, _, _, _, _, _ => .error e
          | _, .error e, _, _, _, _, _, _ => .error e
          | _, _, .error e, _, _, _, _, _ => .error e
          | _, _, _, .error e, _, _, _, _ => .error e
          | _, _, _, _, .error e, _, _, _ => .error e
          | _, _, _, _, _, .error e, _, _ => .error e
          | _, _, _, _, _, _, .error e, _ => .error e
          | _, _, _, _, _, _, _, .error e => .error e
        else
          match _tag_aux data tb with
          | .error e => .error e
          | .ok (tag, _tag_aux_v, aux, bytes_read) =>
            if tag = 0x00 then
              match aux with
              | some a => .ok (.int a, bytes_read)
              | none => .ok (.null, bytes_read)
            else if tag = 0x20 then
              match aux with
              | some a => .ok (.int (-1 - (a : Int)), bytes_read)
              | none => .error .typeError
            else if tag = 0x40 then
              match loads_bytes (data.drop bytes_read) aux 0x40 with
              | .ok (ob, subpos) => .ok (.bytes ob, bytes_read + subpos)
              | .error e => .error e
            else if tag = 0x60 then
              match loads_bytes (data.drop bytes_read) aux 0x60 with
              | .ok (raw, subpos) => .ok (.text raw, bytes_read + subpos)
              | .error e => .error e
            else if tag = 0x80 then
              match aux with
              | none => .error .typeError
              | some n =>
                match _loads_array fuel n (data.drop bytes_read) with
                | .ok (ob, subpos) => .ok (.array ob, bytes_read + subpos)
                | .error e => .error e
            else if tag = 0xA0 then
              match aux with
              | none => .error .typeError
              | some n =>
                match _loads_map fuel n [] (data.drop bytes_read) with
                | .ok (ob, subpos) => .ok (.map ob, bytes_read + subpos)
                | .error e => .error e
            else if tag = 0xC0 then
              match _loads fuel (data.drop bytes_read) 0 false with
              | .ok (ob, subpos) =>
                if returntags then .ok (.tagged aux ob, bytes_read + subpos)
                else
                  match tagify ob aux with
                  | .ok ob2 => .ok (ob2, bytes_read + subpos)
                  | .error e => .error e
              | .error e => .error e
            else
              if tb = 0xF5 then .ok (.bool true, bytes_read)
              else if tb = 0xF4 then .ok (.bool false, bytes_read)
              else if tb = 0xF6 then .ok (.null, bytes_read)
              else if tb = 0xF7 then .ok (.null, bytes_read)
              else .error .malformed
termination_by (fuel, 0)

/-- The xrange(aux) element loop of the array branch. -/
def _loads_array (fuel : Nat) (n : Nat) (data : List Nat) :
    Except DErr (List Value × Nat) :=
  match n with
  | 0 => .ok ([], 0)
  | n + 1 =>
    match _loads fuel data 0 false with
    | .ok (subob, subpos) =>
      match _loads_array fuel n (data.drop subpos) with
      | .ok (rest, pos) => .ok (subob :: rest, subpos + pos)
      | .error e => .error e
    | .error e => .error e
termination_by (fuel, n + 1)

/-- The xrange(aux) key-value loop of the map branch, accumulating into
the dict being built. -/
def _loads_map (fuel : Nat) (n : Nat) (ob : List (Value × Value))
    (data : List Nat) : Except DErr (List (Value × Value) × Nat) :=
  match n with
  | 0 => .ok (ob, 0)
  | n + 1 =>
    match _loads fuel data 0 false with
    | .ok (subk, p1) =>
      match _loads fuel (data.drop p1) 0 false with
      | .ok (subv, p2) =>
        match _loads_map fuel n (dictInsert ob subk subv)
            (data.drop (p1 + p2)) with
        | .ok (m, p) => .ok (m, p1 + p2 + p)
        | .error e => .error e
      | .error e => .error e
    | .error e => .error e
termination_by (fuel, n + 1)

end

/-- loads: the public entry point; decode one item at offset 0 and
return only the object, ignoring any bytes after it.  The fuel supplied
exceeds the buffer length, which every recursion strictly consumes. -/
def loads (data : List Nat) : Except DErr Value :=
  match _loads (data.length + 1) data 0 false with
  | .ok (ob, _) => .ok ob
  | .error e => .error e

/-! ### Wellformedness of in-memory values

A value is representable when it only uses the kinds the encoder handles,
its floats carry exactly 8 payload bytes, and its map keys are unique
(the dict construction invariant). -/

/-- Uniqueness of the keys of an association list (Python dict keys). -/
def keysUnique : List Value → Bool
  | [] => true
  | k :: ks => if k ∈ ks then false else keysUnique ks

mutual

/-- Representable values: the domain of the round-trip property. -/
def WFb : Value → Bool
  | .null => true
  | .bool _ => true
  | .int _ => true
  | .float64 bs => bs.length == 8
  | .float32 _ => false
  | .bytes _ => true
  | .text _ => true
  | .array xs => WFlist xs
  | .map ps => keysUnique (ps.map Prod.fst) && WFpairs ps
  | .tagged _ _ => false
  | .datetime _ => false
  | .regex _ => false

def WFlist : List Value → Bool
  | [] => true
  | x :: xs => WFb x && WFlist xs

def WFpairs : List (Value × Value) → Bool
  | [] => true
  | (k, v) :: ps => WFb k && WFb v && WFpairs ps

end

/-! ### Bignum byte conversion lemmas -/

theorem _dumps_bignum_to_bytearray_nil_iff (n : Nat) :
    _dumps_bignum_to_bytearray n = [] ↔ n = 0 := by
  rw [_dumps_bignum_to_bytearray]
  by_cases h : n = 0 <;> simp [h]

theorem _bytes_to_biguint_bignum (n : Nat) :
    _bytes_to_biguint (_dumps_bignum_to_bytearray n) = n := by
  induction n using Nat.strong_induction_on with
  | _ n ih =>
    rw [_dumps_bignum_to_bytearray]
    by_cases h : n = 0
    · simp [h, _bytes_to_biguint]
    · have hlt : n / 256 < n := Nat.div_lt_self (by omega) (by omega)
      have hrec := ih (n / 256) hlt
      simp only [h, if_false, _bytes_to_biguint, List.foldl_append]
      rw [_bytes_to_biguint] at hrec
      rw [hrec]
      simp only [List.foldl_cons, List.foldl_nil]
      omega

theorem _dumps_bignum_to_bytearray_head_ne_zero (n b : Nat) (bs : List Nat)
    (h : _dumps_bignum_to_bytearray n = b :: bs) : b ≠ 0 := by
  induction n using Nat.strong_induction_on generalizing b bs with
  | _ n ih =>
    rw [_dumps_bignum_to_bytearray] at h
    by_cases h0 : n = 0
    · simp [h0] at h
    · simp only [h0, if_false] at h
      rcases hq : _dumps_bignum_to_bytearray (n / 256) with _ | ⟨b1, bs1⟩
      · rw [hq] at h
        have hz : n / 256 = 0 := (_dumps_bignum_to_bytearray_nil_iff _).mp hq
        rw [List.nil_append] at h
        injection h with h1 h2
        omega
      · rw [hq, List.cons_append] at h
        injection h with h1 h2
        subst h1
        exact ih (n / 256) (Nat.div_lt_self (by omega) (by omega)) b1 bs1 hq

/-! ### Header codec lemmas -/

/-- Successful header encoding of any type other than the negative one
means the auxiliary value fits 64 bits. -/
theorem _encode_type_num_ok_le (t val : Nat) (h : List Nat)
    (ht : t ≠ 0x20) (he : _encode_type_num t val = .ok h) :
    val ≤ 0xffffffffffffffff := by
  rw [_encode_type_num] at he
  split_ifs at he <;> omega

/-- Header bytes are never empty. -/
theorem _encode_type_num_len_pos (t val : Nat) (h : List Nat)
    (he : _encode_type_num t val = .ok h) : 1 ≤ h.length := by
  rw [_encode_type_num] at he
  by_cases c1 : val ≤ 23
  · rw [if_pos c1] at he; injection he with he2; subst he2; simp
  · rw [if_neg c1] at he
    by_cases c2 : val ≤ 0xff
    · rw [if_pos c2] at he; injection he with he2; subst he2; simp
    · rw [if_neg c2] at he
      by_cases c3 : val ≤ 0xffff
      · rw [if_pos c3] at he; injection he with he2; subst he2; simp
      · rw [if_neg c3] at he
        by_cases c4 : val ≤ 0xffffffff
        · rw [if_pos c4] at he; injection he with he2; subst he2; simp
        · rw [if_neg c4] at he
          by_cases c5 : val ≤ 0xffffffffffffffff
          · rw [if_pos c5] at he; injection he with he2; subst he2; simp
          · rw [if_neg c5] at he
            by_cases c6 : t ≠ 0x20
            · rw [if_pos c6] at he; simp at he
            · rw [if_neg c6] at he
              rcases hm : _encode_type_num 0x40
                  (_dumps_bignum_to_bytearray val).length with e | hh
              · rw [hm] at he
                simp at he
              · rw [hm] at he
                injection he with he2
                subst he2
                simp

/-- Decoding a header produced by _encode_type_num recovers the major
type, the auxiliary value, and the header length, for any following
bytes; the leading byte stays below the major-type-7 range. -/
theorem decode_header (t val : Nat) (h rest : List Nat)
    (hm : t % 32 = 0) (ht : t ≤ 192)
    (hv : val ≤ 0xffffffffffffffff)
    (he : _encode_type_num t val = .ok h) :
    ∃ tb, (h ++ rest)[0]? = some tb ∧ tb < 224 ∧
      _tag_aux (h ++ rest) tb = .ok (t, tb % 32, some val, h.length) := by
  rw [_encode_type_num] at he
  by_cases c1 : val ≤ 23
  · rw [if_pos c1] at he
    injection he with he2; subst he2
    refine ⟨t + val, by simp, by omega, ?_⟩
    have e1 : (t + val) % 32 = val := by omega
    have e2 : (t + val) / 32 * 32 = t := by omega
    simp [_tag_aux, e1, e2, c1]
  · rw [if_neg c1] at he
    by_cases c2 : val ≤ 0xff
    · rw [if_pos c2] at he
      injection he with he2; subst he2
      refine ⟨t + 24, by simp, by omega, ?_⟩
      have e1 : (t + 24) % 32 = 24 := by omega
      have e2 : (t + 24) / 32 * 32 = t := by omega
      simp [_tag_aux, e1, e2, byteAt]
    · rw [if_neg c2] at he
      by_cases c3 : val ≤ 0xffff
      · rw [if_pos c3] at he
        injection he with he2; subst he2
        refine ⟨t + 25, by simp, by omega, ?_⟩
        have e1 : (t + 25) % 32 = 25 := by omega
        have e2 : (t + 25) / 32 * 32 = t := by omega
        simp [_tag_aux, e1, e2, byteAt]
        try omega
      · rw [if_neg c3] at he
        by_cases c4 : val ≤ 0xffffffff
        · rw [if_pos c4] at he
          injection he with he2; subst he2
          refine ⟨t + 26, by simp, by omega, ?_⟩
          have e1 : (t + 26) % 32 = 26 := by omega
          have e2 : (t + 26) / 32 * 32 = t := by omega
          simp [_tag_aux, e1, e2, byteAt]
          try omega
        · rw [if_neg c4] at he
          by_cases c5 : val ≤ 0xffffffffffffffff
          · rw [if_pos c5] at he
            injection he with he2; subst he2
            refine ⟨t + 27, by simp, by omega, ?_⟩
            have e1 : (t + 27) % 32 = 27 := by omega
            have e2 : (t + 27) / 32 * 32 = t := by omega
            simp [_tag_aux, e1, e2, byteAt]
            try omega
          · omega

/-! ### One-step unfolding lemmas for the decoder dispatch -/

theorem _loads_case_uint (fuel : Nat) (data : List Nat) (rt : Bool)
    (tb x v br : Nat) (htb : data[0]? = some tb) (hlt : tb < 224)
    (hta : _tag_aux data tb = .ok (0x00, x, some v, br)) :
    _loads (fuel + 1) data 0 rt = .ok (.int v, br) := by
  have h9 : ¬ tb = 0xF9 := by omega
  have hA : ¬ tb = 0xFA := by omega
  have hB : ¬ tb = 0xFB := by omega
  rw [_loads]
  simp [byteAt, htb, h9, hA, hB, hta, _MAX_DEPTH]

theorem _loads_case_negint (fuel : Nat) (data : List Nat) (rt : Bool)
    (tb x v br : Nat) (htb : data[0]? = some tb) (hlt : tb < 224)
    (hta : _tag_aux data tb = .ok (0x20, x, some v, br)) :
    _loads (fuel + 1) data 0 rt = .ok (.int (-1 - (v : Int)), br) := by
  have h9 : ¬ tb = 0xF9 := by omega
  have hA : ¬ tb = 0xFA := by omega
  have hB : ¬ tb = 0xFB := by omega
  rw [_loads]
  simp [byteAt, htb, h9, hA, hB, hta, _MAX_DEPTH]

theorem _loads_case_bytes (fuel : Nat) (data : List Nat) (rt : Bool)
    (tb x br : Nat) (aux : Option Nat) (htb : data[0]? = some tb)
    (hlt : tb < 224) (hta : _tag_aux data tb = .ok (0x40, x, aux, br)) :
    _loads (fuel + 1) data 0 rt =
      match loads_bytes (data.drop br) aux 0x40 with
      | .ok (ob, subpos) => .ok (.bytes ob, br + subpos)
      | .error e => .error e := by
  have h9 : ¬ tb = 0xF9 := by omega
  have hA : ¬ tb = 0xFA := by omega
  have hB : ¬ tb = 0xFB := by omega
  rw [_loads]
  simp [byteAt, htb, h9, hA, hB, hta, _MAX_DEPTH]

theorem _loads_case_text (fuel : Nat) (data : List Nat) (rt : Bool)
    (tb x br : Nat) (aux : Option Nat) (htb : data[0]? = some tb)
    (hlt : tb < 224) (hta : _tag_aux data tb = .ok (0x60, x, aux, br)) :
    _loads (fuel + 1) data 0 rt =
      match loads_bytes (data.drop br) aux 0x60 with
      | .ok (raw, subpos) => .ok (.text raw, br + subpos)
      | .error e => .error e := by
  have h9 : ¬ tb = 0xF9 := by omega
  have hA : ¬ tb = 0xFA := by omega
  have hB : ¬ tb = 0xFB := by omega
  rw [_loads]
  simp [byteAt, htb, h9, hA, hB, hta, _MAX_DEPTH]

theorem _loads_case_array (fuel : Nat) (data : List Nat) (rt : Bool)
    (tb x n br : Nat) (htb : data[0]? = some tb) (hlt : tb < 224)
    (hta : _tag_aux data tb = .ok (0x80, x, some n, br)) :
    _loads (fuel + 1) data 0 rt =
      match _loads_array fuel n (data.drop br) with
      | .ok (ob, subpos) => .ok (.array ob, br + subpos)
      | .error e => .error e := by
  have h9 : ¬ tb = 0xF9 := by omega
  have hA : ¬ tb = 0xFA := by omega
  have hB : ¬ tb = 0xFB := by omega
  rw [_loads]
  simp [byteAt, htb, h9, hA, hB, hta, _MAX_DEPTH]

theorem _loads_case_map (fuel : Nat) (data : List Nat) (rt : Bool)
    (tb x n br : Nat) (htb : data[0]? = some tb) (hlt : tb < 224)
    (hta : _tag_aux data tb = .ok (0xA0, x, some n, br)) :
    _loads (fuel + 1) data 0 rt =
      match _loads_map fuel n [] (data.drop br) with
      | .ok (ob, subpos) => .ok (.map ob, br + subpos)
      | .error e => .error e := by
  have h9 : ¬ tb = 0xF9 := by omega
  have hA : ¬ tb = 0xFA := by omega
  have hB : ¬ tb = 0xFB := by omega
  rw [_loads]
  simp [byteAt, htb, h9, hA, hB, hta, _MAX_DEPTH]

theorem _loads_case_tag (fuel : Nat) (data : List Nat) (rt : Bool)
    (tb x br : Nat) (aux : Option Nat) (htb : data[0]? = some tb)
    (hlt : tb < 224) (hta : _tag_aux data tb = .ok (0xC0, x, aux, br)) :
    _loads (fuel + 1) data 0 rt =
      match _loads fuel (data.drop br) 0 false with
      | .ok (ob, subpos) =>
        if rt then .ok (.tagged aux ob, br + subpos)
        else
          match tagify ob aux with
          | .ok ob2 => .ok (ob2, br + subpos)
          | .error e => .error e
      | .error e => .error e := by
  have h9 : ¬ tb = 0xF9 := by omega
  have hA : ¬ tb = 0xFA := by omega
  have hB : ¬ tb = 0xFB := by omega
  rw [_loads]
  simp [byteAt, htb, h9, hA, hB, hta, _MAX_DEPTH]

/-- The _tag_aux split of a tag-major-type byte with an inline small tag
number, as emitted for the bignum tags. -/
theorem _tag_aux_smalltag (data : List Nat) (tg : Nat) (h : tg ≤ 23) :
    _tag_aux data (192 + tg) = .ok (192, tg, some tg, 1) := by
  have e1 : (192 + tg) % 32 = tg := by omega
  have e2 : (192 + tg) / 32 * 32 = 192 := by omega
  simp [_tag_aux, e1, e2, h]

/-! ### Shape lemmas for the integer encoder -/

/-- For a nonnegative integer within 64 bits, dumps_int produces exactly
the major-type-0 header encoding. -/
theorem dumps_int_small (m : Int) (hpos : 0 ≤ m)
    (hle : m.toNat ≤ 0xffffffffffffffff) :
    dumps_int m = _encode_type_num 0 m.toNat := by
  rw [dumps_int, if_pos hpos, _encode_type_num]
  by_cases c1 : m.toNat ≤ 23
  · rw [if_pos c1, if_pos c1]; try norm_num
  · rw [if_neg c1, if_neg c1]
    by_cases c2 : m.toNat ≤ 0xff
    · rw [if_pos c2, if_pos c2]; try norm_num
    · rw [if_neg c2, if_neg c2]
      by_cases c3 : m.toNat ≤ 0xffff
      · rw [if_pos c3, if_pos c3]; try norm_num
      · rw [if_neg c3, if_neg c3]
        by_cases c4 : m.toNat ≤ 0xffffffff
        · rw [if_pos c4, if_pos c4]; try norm_num
        · rw [if_neg c4, if_neg c4, if_pos hle, if_pos hle]; try norm_num

/-- For a nonnegative integer beyond 64 bits, dumps_int emits the tag-2
bignum item: tag byte, byte-string header, big-endian bytes. -/
theorem dumps_int_big (m : Int) (bs : List Nat) (hpos : 0 ≤ m)
    (hbig : 0xffffffffffffffff < m.toNat)
    (hd : dumps_int m = .ok bs) :
    ∃ h2, _encode_type_num 0x40 (_dumps_bignum_to_bytearray m.toNat).length
        = .ok h2 ∧
      bs = (0xC0 + 2) :: h2 ++ _dumps_bignum_to_bytearray m.toNat := by
  rw [dumps_int, if_pos hpos] at hd
  rw [if_neg (by omega), if_neg (by omega), if_neg (by omega),
    if_neg (by omega), if_neg (by omega)] at hd
  rcases hm : _encode_type_num 0x40
      (_dumps_bignum_to_bytearray m.toNat).length with e | h2
  · rw [hm] at hd; simp at hd
  · rw [hm] at hd
    injection hd with hd2
    exact ⟨h2, rfl, hd2.symm⟩

/-- For a negative integer beyond 64 bits, the negative-integer header
routine emits the tag-3 bignum item. -/
theorem _encode_type_num_negint_big (val : Nat) (bs : List Nat)
    (hbig : 0xffffffffffffffff < val)
    (hd : _encode_type_num 0x20 val = .ok bs) :
    ∃ h2, _encode_type_num 0x40 (_dumps_bignum_to_bytearray val).length
        = .ok h2 ∧
      bs = (0xC0 + 3) :: h2 ++ _dumps_bignum_to_bytearray val := by
  rw [_encode_type_num] at hd
  rw [if_neg (by omega), if_neg (by omega), if_neg (by omega),
    if_neg (by omega), if_neg (by omega), if_neg (by simp)] at hd
  rcases hm : _encode_type_num 0x40
      (_dumps_bignum_to_bytearray val).length with e | h2
  · rw [hm] at hd; simp at hd
  · rw [hm] at hd
    injection hd with hd2
    exact ⟨h2, rfl, hd2.symm⟩

/-- Decoding a definite-length byte-string item at the head of the
buffer returns exactly its payload. -/
theorem rt_bytes_item (f : Nat) (h2 outb rest : List Nat)
    (he : _encode_type_num 0x40 outb.length = .ok h2) (hf : 0 < f) :
    _loads f (h2 ++ (outb ++ rest)) 0 false =
      .ok (.bytes outb, h2.length + outb.length) := by
  obtain ⟨g, rfl⟩ : ∃ g, f = g + 1 := ⟨f - 1, by omega⟩
  have hv : outb.length ≤ 0xffffffffffffffff :=
    _encode_type_num_ok_le 0x40 outb.length h2 (by norm_num) he
  obtain ⟨tb, htb, hlt, hta⟩ :=
    decode_header 0x40 outb.length h2 (outb ++ rest) (by norm_num)
      (by norm_num) hv he
  rw [_loads_case_bytes g (h2 ++ (outb ++ rest)) false tb (tb % 32)
    h2.length (some outb.length) htb hlt hta]
  rw [List.drop_left]
  simp [loads_bytes, List.take_left]

/-! ### Round trip -/

/-- keysUnique is the Nodup predicate. -/
theorem keysUnique_iff_nodup (l : List Value) :
    keysUnique l = true ↔ l.Nodup := by
  induction l with
  | nil => simp [keysUnique]
  | cons k ks ih =>
    rw [keysUnique]
    by_cases hm : k ∈ ks
    · simp [hm]
    · simp [hm, ih]

/-- Python dict insertion of a fresh key appends the pair. -/
theorem dictInsert_append (ps : List (Value × Value)) (k v : Value)
    (h : k ∉ ps.map Prod.fst) : dictInsert ps k v = ps ++ [(k, v)] := by
  induction ps with
  | nil => rfl
  | cons p ps ih =>
    obtain ⟨k1, v1⟩ := p
    simp only [List.map_cons, List.mem_cons] at h
    push_neg at h
    rw [dictInsert, if_neg (fun hh => h.1 hh.symm), ih h.2]
    rfl

theorem value_sizeOf_pos (v : Value) : 0 < sizeOf v := by
  cases v <;> simp_arith

theorem list_length_eight (l : List Nat) (h : l.length = 8) :
    ∃ b1 b2 b3 b4 b5 b6 b7 b8, l = [b1, b2, b3, b4, b5, b6, b7, b8] := by
  rcases l with _ | ⟨b1, l⟩
  · simp at h
  rcases l with _ | ⟨b2, l⟩
  · simp at h
  rcases l with _ | ⟨b3, l⟩
  · simp at h
  rcases l with _ | ⟨b4, l⟩
  · simp at h
  rcases l with _ | ⟨b5, l⟩
  · simp at h
  rcases l with _ | ⟨b6, l⟩
  · simp at h
  rcases l with _ | ⟨b7, l⟩
  · simp at h
  rcases l with _ | ⟨b8, l⟩
  · simp at h
  rcases l with _ | ⟨b9, l⟩
  · exact ⟨b1, b2, b3, b4, b5, b6, b7, b8, rfl⟩
  · simp at h

/-- The round-trip property of a single value: its encoding, followed by
anything, decodes back to it, consuming exactly the encoding. -/
def RTP (v : Value) : Prop :=
  ∀ (bs rest : List Nat) (fuel : Nat), WFb v = true → dumps v = .ok bs →
    bs.length < fuel →
    _loads fuel (bs ++ rest) 0 false = .ok (v, bs.length)

theorem rt_list_aux : ∀ (xs : List Value), (∀ x ∈ xs, RTP x) →
    ∀ (bsl rest : List Nat) (fuel : Nat), WFlist xs = true →
    dumpsList xs = .ok bsl → bsl.length < fuel →
    _loads_array fuel xs.length (bsl ++ rest) = .ok (xs, bsl.length) := by
  intro xs
  induction xs with
  | nil =>
    intro H bsl rest fuel hwf hd hf
    rw [dumpsList] at hd
    injection hd with hd2
    subst hd2
    simp [_loads_array]
  | cons x xs ihl =>
    intro H bsl rest fuel hwf hd hf
    rw [dumpsList] at hd
    rcases ha : dumps x with e | a
    · rw [ha] at hd; simp at hd
    · rw [ha] at hd
      rcases hb : dumpsList xs with e | b
      · rw [hb] at hd; simp at hd
      · rw [hb] at hd
        injection hd with hd2
        subst hd2
        rw [WFlist, Bool.and_eq_true] at hwf
        obtain ⟨hwx, hwxs⟩ := hwf
        simp only [List.length_append] at hf
        have hx := H x (List.mem_cons_self x xs) a (b ++ rest) fuel hwx ha
          (by omega)
        have hdrop : (a ++ (b ++ rest)).drop a.length = b ++ rest :=
          List.drop_left a (b ++ rest)
        have hrec := ihl (fun y hy => H y (List.mem_cons_of_mem x hy)) b rest
          fuel hwxs hb (by omega)
        rw [List.append_assoc]
        simp [_loads_array, hx, hdrop, hrec, List.length_append]

theorem rt_map_aux : ∀ (ps : List (Value × Value)),
    (∀ kv ∈ ps, RTP kv.1 ∧ RTP kv.2) →
    ∀ (acc : List (Value × Value)) (bsp rest : List Nat) (fuel : Nat),
    WFpairs ps = true → dumpsPairs ps = .ok bsp → bsp.length < fuel →
    ((acc ++ ps).map Prod.fst).Nodup →
    _loads_map fuel ps.length acc (bsp ++ rest) =
      .ok (acc ++ ps, bsp.length) := by
  intro ps
  induction ps with
  | nil =>
    intro H acc bsp rest fuel hwf hd hf hnd
    rw [dumpsPairs] at hd
    injection hd with hd2
    subst hd2
    simp [_loads_map]
  | cons kv ps ihp =>
    obtain ⟨k, v⟩ := kv
    intro H acc bsp rest fuel hwf hd hf hnd
    rw [dumpsPairs] at hd
    rcases ha : dumps k with e | a
    · rw [ha] at hd; simp at hd
    · rw [ha] at hd
      rcases hb : dumps v with e | b
      · rw [hb] at hd; simp at hd
      · rw [hb] at hd
        rcases hc : dumpsPairs ps with e | c
        · rw [hc] at hd; simp at hd
        · rw [hc] at hd
          injection hd with hd2
          subst hd2
          rw [WFpairs, Bool.and_eq_true, Bool.and_eq_true] at hwf
          obtain ⟨⟨hwk, hwv⟩, hwps⟩ := hwf
          simp only [List.length_append] at hf
          have hH := H (k, v) (List.mem_cons_self (k, v) ps)
          have hk := hH.1 a (b ++ (c ++ rest)) fuel hwk ha (by omega)
          have hv2 := hH.2 b (c ++ rest) fuel hwv hb (by omega)
          have hknotin : k ∉ acc.map Prod.fst := by
            intro hkmem
            rw [List.map_append, List.nodup_append] at hnd
            exact hnd.2.2 hkmem (by simp)
          have hins : dictInsert acc k v = acc ++ [(k, v)] :=
            dictInsert_append acc k v hknotin
          have hnd2 : (((acc ++ [(k, v)]) ++ ps).map Prod.fst).Nodup := by
            rw [List.append_assoc, List.singleton_append]
            exact hnd
          have hrec := ihp (fun y hy => H y (List.mem_cons_of_mem (k, v) hy))
            (acc ++ [(k, v)]) c rest fuel hwps hc (by omega) hnd2
          have hdrop1 : (a ++ (b ++ (c ++ rest))).drop a.length =
              b ++ (c ++ rest) := List.drop_left a (b ++ (c ++ rest))
          have hdrop2 : (a ++ (b ++ (c ++ rest))).drop (a.length + b.length) =
              c ++ rest := by
            rw [show a ++ (b ++ (c ++ rest)) = (a ++ b) ++ (c ++ rest) by
              simp [List.append_assoc]]
            rw [show a.length + b.length = (a ++ b).length by
              simp [List.length_append]]
            exact List.drop_left (a ++ b) (c ++ rest)
          rw [show (a ++ b ++ c) ++ rest = a ++ (b ++ (c ++ rest)) by
            simp [List.append_assoc]]
          simp only [List.length_cons, _loads_map, hk, hdrop1, hv2, hdrop2,
            hins, hrec]
          have : (acc ++ [(k, v)]) ++ ps = acc ++ (k, v) :: ps := by
            rw [List.append_assoc, List.singleton_append]
          simp [this, List.length_append]
          omega

/-- Round trip for every representable value, by strong induction on the
size of the value. -/
theorem rt_all : ∀ (n : Nat) (v : Value), sizeOf v ≤ n → RTP v := by
  intro n
  induction n with
  | zero =>
    intro v hv
    have := value_sizeOf_pos v
    omega
  | succ n ih =>
    intro v hv
    cases v with
    | null =>
      intro bs rest fuel hwf hd hf
      rw [dumps] at hd
      injection hd with hd2
      subst hd2
      have hpos : 0 < fuel := lt_of_le_of_lt (Nat.zero_le _) hf
      obtain ⟨f, rfl⟩ : ∃ g, fuel = g + 1 := ⟨fuel - 1, by omega⟩
      simp [_loads, byteAt, _tag_aux, _MAX_DEPTH]
    | bool b =>
      intro bs rest fuel hwf hd hf
      rw [dumps] at hd
      injection hd with hd2
      subst hd2
      have hpos : 0 < fuel := lt_of_le_of_lt (Nat.zero_le _) hf
      obtain ⟨f, rfl⟩ : ∃ g, fuel = g + 1 := ⟨fuel - 1, by omega⟩
      cases b <;> simp [dumps_bool, _loads, byteAt, _tag_aux, _MAX_DEPTH]
    | float64 lb =>
      intro bs rest fuel hwf hd hf
      simp only [WFb, beq_iff_eq] at hwf
      obtain ⟨b1, b2, b3, b4, b5, b6, b7, b8, rfl⟩ := list_length_eight lb hwf
      rw [dumps] at hd
      injection hd with hd2
      subst hd2
      have hpos : 0 < fuel := lt_of_le_of_lt (Nat.zero_le _) hf
      obtain ⟨f, rfl⟩ : ∃ g, fuel = g + 1 := ⟨fuel - 1, by omega⟩
      simp [dumps_float, _loads, byteAt, _MAX_DEPTH]
    | int m =>
      intro bs rest fuel hwf hd hf
      rw [dumps] at hd
      have hpos0 : 0 < fuel := lt_of_le_of_lt (Nat.zero_le _) hf
      obtain ⟨f, rfl⟩ : ∃ g, fuel = g + 1 := ⟨fuel - 1, by omega⟩
      by_cases hpos : 0 ≤ m
      · by_cases hsmall : m.toNat ≤ 0xffffffffffffffff
        · have he : _encode_type_num 0 m.toNat = .ok bs := by
            rw [← dumps_int_small m hpos hsmall]; exact hd
          obtain ⟨tb, htb, hlt, hta⟩ := decode_header 0 m.toNat bs rest
            (by norm_num) (by norm_num) hsmall he
          rw [_loads_case_uint f (bs ++ rest) false tb (tb % 32) m.toNat
            bs.length htb hlt hta, Int.toNat_of_nonneg hpos]
        · push_neg at hsmall
          obtain ⟨h2, hh2, rfl⟩ := dumps_int_big m bs hpos hsmall hd
          have hl2 := _encode_type_num_len_pos 0x40 _ h2 hh2
          simp only [List.length_cons, List.length_append] at hf
          have htb : (((0xC0 + 2) ::
              (h2 ++ _dumps_bignum_to_bytearray m.toNat)) ++ rest)[0]? =
              some (0xC0 + 2) := by simp
          have hta := _tag_aux_smalltag
            (((0xC0 + 2) :: (h2 ++ _dumps_bignum_to_bytearray m.toNat)) ++
              rest) 2 (by norm_num)
          rw [show ((0xC0 + 2) :: h2 ++ _dumps_bignum_to_bytearray m.toNat)
              ++ rest = ((0xC0 + 2) ::
              (h2 ++ _dumps_bignum_to_bytearray m.toNat)) ++ rest by simp]
          rw [_loads_case_tag f _ false (0xC0 + 2) 2 1 (some 2) htb
            (by norm_num) hta]
          have hdrop : ((((0xC0 + 2) ::
              (h2 ++ _dumps_bignum_to_bytearray m.toNat)) ++ rest)).drop 1 =
              h2 ++ (_dumps_bignum_to_bytearray m.toNat ++ rest) := by
            simp [List.cons_append, List.append_assoc]
          rw [hdrop, rt_bytes_item f h2 _ rest hh2 (by omega)]
          simp [tagify, _bytes_to_biguint_bignum, Int.toNat_of_nonneg hpos]
          omega
      · push_neg at hpos
        rw [dumps_int, if_neg (by omega)] at hd
        by_cases hsmall : (-1 - m).toNat ≤ 0xffffffffffffffff
        · obtain ⟨tb, htb, hlt, hta⟩ := decode_header 0x20 ((-1 - m).toNat)
            bs rest (by norm_num) (by norm_num) hsmall hd
          rw [_loads_case_negint f (bs ++ rest) false tb (tb % 32)
            ((-1 - m).toNat) bs.length htb hlt hta]
          have hcast : (-1 - (((-1 - m).toNat : Int))) = m := by
            rw [Int.toNat_of_nonneg (by omega)]
            omega
          rw [hcast]
        · push_neg at hsmall
          obtain ⟨h2, hh2, rfl⟩ := _encode_type_num_negint_big ((-1 - m).toNat)
            bs hsmall hd
          have hl2 := _encode_type_num_len_pos 0x40 _ h2 hh2
          simp only [List.length_cons, List.length_append] at hf
          have htb : (((0xC0 + 3) ::
              (h2 ++ _dumps_bignum_to_bytearray (-1 - m).toNat)) ++
              rest)[0]? = some (0xC0 + 3) := by simp
          have hta := _tag_aux_smalltag
            (((0xC0 + 3) :: (h2 ++ _dumps_bignum_to_bytearray (-1 - m).toNat))
              ++ rest) 3 (by norm_num)
          rw [show ((0xC0 + 3) :: h2 ++
              _dumps_bignum_to_bytearray (-1 - m).toNat) ++ rest =
              ((0xC0 + 3) ::
              (h2 ++ _dumps_bignum_to_bytearray (-1 - m).toNat)) ++ rest by
            simp]
          rw [_loads_case_tag f _ false (0xC0 + 3) 3 1 (some 3) htb
            (by norm_num) hta]
          have hdrop : ((((0xC0 + 3) ::
              (h2 ++ _dumps_bignum_to_bytearray (-1 - m).toNat)) ++
              rest)).drop 1 =
              h2 ++ (_dumps_bignum_to_bytearray (-1 - m).toNat ++ rest) := by
            simp [List.cons_append, List.append_assoc]
          rw [hdrop, rt_bytes_item f h2 _ rest hh2 (by omega)]
          have hcast : (-1 - ((_bytes_to_biguint
              (_dumps_bignum_to_bytearray (-1 - m).toNat) : Int))) = m := by
            rw [_bytes_to_biguint_bignum, Int.toNat_of_nonneg (by omega)]
            omega
          simp [tagify, hcast]
          omega
    | bytes lb =>
      intro bs rest fuel hwf hd hf
      rw [dumps] at hd
      rcases hm : _encode_type_num 0x40 lb.length with e | h2
      · rw [hm] at hd; simp at hd
      · rw [hm] at hd
        injection hd with hd2
        subst hd2
        have hpos : 0 < fuel := lt_of_le_of_lt (Nat.zero_le _) hf
        obtain ⟨f, rfl⟩ : ∃ g, fuel = g + 1 := ⟨fuel - 1, by omega⟩
        have hv := _encode_type_num_ok_le 0x40 lb.length h2 (by norm_num) hm
        obtain ⟨tb, htb, hlt, hta⟩ := decode_header 0x40 lb.length h2
          (lb ++ rest) (by norm_num) (by norm_num) hv hm
        rw [List.append_assoc]
        rw [_loads_case_bytes f (h2 ++ (lb ++ rest)) false tb (tb % 32)
          h2.length (some lb.length) htb hlt hta]
        rw [List.drop_left]
        simp [loads_bytes, List.take_left, List.length_append]
    | text lb =>
      intro bs rest fuel hwf hd hf
      rw [dumps] at hd
      rcases hm : _encode_type_num 0x60 lb.length with e | h2
      · rw [hm] at hd; simp at hd
      · rw [hm] at hd
        injection hd with hd2
        subst hd2
        have hpos : 0 < fuel := lt_of_le_of_lt (Nat.zero_le _) hf
        obtain ⟨f, rfl⟩ : ∃ g, fuel = g + 1 := ⟨fuel - 1, by omega⟩
        have hv := _encode_type_num_ok_le 0x60 lb.length h2 (by norm_num) hm
        obtain ⟨tb, htb, hlt, hta⟩ := decode_header 0x60 lb.length h2
          (lb ++ rest) (by norm_num) (by norm_num) hv hm
        rw [List.append_assoc]
        rw [_loads_case_text f (h2 ++ (lb ++ rest)) false tb (tb % 32)
          h2.length (some lb.length) htb hlt hta]
        rw [List.drop_left]
        simp [loads_bytes, List.take_left, List.length_append]
    | array xs =>
      intro bs rest fuel hwf hd hf
      rw [dumps] at hd
      rcases hm : _encode_type_num 0x80 xs.length with e | h1
      · rw [hm] at hd; simp at hd
      · rw [hm] at hd
        rcases hp : dumpsList xs with e | parts
        · rw [hp] at hd; simp at hd
        · rw [hp] at hd
          injection hd with hd2
          subst hd2
          rw [WFb] at hwf
          have hpos : 0 < fuel := lt_of_le_of_lt (Nat.zero_le _) hf
          obtain ⟨f, rfl⟩ : ∃ g, fuel = g + 1 := ⟨fuel - 1, by omega⟩
          have hv := _encode_type_num_ok_le 0x80 xs.length h1 (by norm_num) hm
          obtain ⟨tb, htb, hlt, hta⟩ := decode_header 0x80 xs.length h1
            (parts ++ rest) (by norm_num) (by norm_num) hv hm
          rw [List.append_assoc]
          rw [_loads_case_array f (h1 ++ (parts ++ rest)) false tb (tb % 32)
            xs.length h1.length htb hlt hta]
          rw [List.drop_left]
          have hH : ∀ x ∈ xs, RTP x := by
            intro x hx
            apply ih x
            have h1s := List.sizeOf_lt_of_mem hx
            have h2s : sizeOf (Value.array xs) = 1 + sizeOf xs := by simp
            omega
          have hl1 := _encode_type_num_len_pos 0x80 xs.length h1 hm
          simp only [List.length_append] at hf
          rw [rt_list_aux xs hH parts rest f hwf hp (by omega)]
          simp [List.length_append]
    | map ps =>
      intro bs rest fuel hwf hd hf
      rw [dumps] at hd
      rcases hm : _encode_type_num 0xA0 ps.length with e | h1
      · rw [hm] at hd; simp at hd
      · rw [hm] at hd
        rcases hp : dumpsPairs ps with e | parts
        · rw [hp] at hd; simp at hd
        · rw [hp] at hd
          injection hd with hd2
          subst hd2
          rw [WFb, Bool.and_eq_true] at hwf
          obtain ⟨hku, hwps⟩ := hwf
          have hpos : 0 < fuel := lt_of_le_of_lt (Nat.zero_le _) hf
          obtain ⟨f, rfl⟩ : ∃ g, fuel = g + 1 := ⟨fuel - 1, by omega⟩
          have hv := _encode_type_num_ok_le 0xA0 ps.length h1 (by norm_num) hm
          obtain ⟨tb, htb, hlt, hta⟩ := decode_header 0xA0 ps.length h1
            (parts ++ rest) (by norm_num) (by norm_num) hv hm
          rw [List.append_assoc]
          rw [_loads_case_map f (h1 ++ (parts ++ rest)) false tb (tb % 32)
            ps.length h1.length htb hlt hta]
          rw [List.drop_left]
          have hH : ∀ kv ∈ ps, RTP kv.1 ∧ RTP kv.2 := by
            intro kv hkv
            have h1s := List.sizeOf_lt_of_mem hkv
            have h2s : sizeOf (Value.map ps) = 1 + sizeOf ps := by simp
            obtain ⟨k, v⟩ := kv
            have h3s : sizeOf ((k, v) : Value × Value) =
                1 + sizeOf k + sizeOf v := by simp
            constructor
            · apply ih k
              omega
            · apply ih v
              omega
          have hnd : ((([] : List (Value × Value)) ++ ps).map
              Prod.fst).Nodup := by
            rw [List.nil_append]
            exact (keysUnique_iff_nodup (ps.map Prod.fst)).mp hku
          have hl1 := _encode_type_num_len_pos 0xA0 ps.length h1 hm
          simp only [List.length_append] at hf
          rw [rt_map_aux ps hH [] parts rest f hwps hp (by omega) hnd]
          simp [List.length_append]
    | float32 lb =>
      intro bs rest fuel hwf hd hf
      simp [WFb] at hwf
    | tagged t v =>
      intro bs rest fuel hwf hd hf
      simp [WFb] at hwf
    | datetime v =>
      intro bs rest fuel hwf hd hf
      simp [WFb] at hwf
    | regex v =>
      intro bs rest fuel hwf hd hf
      simp [WFb] at hwf

/-- Decoding an encoding (with nothing after it) yields the value back. -/
theorem loads_dumps (v : Value) (bs : List Nat) (hwf : WFb v = true)
    (hd : dumps v = .ok bs) : loads bs = .ok v := by
  rw [loads]
  have hv := rt_all (sizeOf v) v le_rfl bs [] (bs.length + 1) hwf hd
    (by omega)
  rw [List.append_nil] at hv
  rw [hv]

/-- n-fold nesting of single-element arrays around the integer zero. -/
def nestArr : Nat → Value
  | 0 => .int 0
  | n + 1 => .array [nestArr n]

theorem _loads_array_one (fuel : Nat) (data : List Nat) :
    _loads_array fuel 1 data =
      match _loads fuel data 0 false with
      | .ok (subob, subpos) => .ok ([subob], subpos)
      | .error e => .error e := by
  rw [show (1 : Nat) = 0 + 1 from rfl]
  rw [_loads_array]
  cases hres : _loads fuel data 0 false with
  | error e => rfl
  | ok p =>
    obtain ⟨subob, subpos⟩ := p
    simp [_loads_array]

/-- Decoding n nested single-element arrays around a zero byte succeeds
for every n, because the source never increments the depth argument in
its recursive calls. -/
theorem nest_decode : ∀ (n f : Nat), n + 2 ≤ f →
    _loads f (List.replicate n 0x81 ++ [0x00]) 0 false =
      .ok (nestArr n, n + 1) := by
  intro n
  induction n with
  | zero =>
    intro f hf
    obtain ⟨g, rfl⟩ : ∃ g, f = g + 1 := ⟨f - 1, by omega⟩
    simp [_loads, byteAt, _tag_aux, _MAX_DEPTH, nestArr]
  | succ n ihn =>
    intro f hf
    obtain ⟨g, rfl⟩ : ∃ g, f = g + 1 := ⟨f - 1, by omega⟩
    rw [show List.replicate (n + 1) 0x81 ++ [0x00] =
      0x81 :: (List.replicate n 0x81 ++ [0x00]) by simp [List.replicate_succ]]
    have htb : (0x81 :: (List.replicate n 0x81 ++ [0x00]))[0]? =
      some 0x81 := by simp
    have hta : _tag_aux (0x81 :: (List.replicate n 0x81 ++ [0x00])) 0x81 =
        .ok (0x80, 1, some 1, 1) := by simp [_tag_aux]
    rw [_loads_case_array g _ false 0x81 1 1 1 htb (by norm_num) hta]
    rw [show (0x81 :: (List.replicate n 0x81 ++ [0x00])).drop 1 =
      List.replicate n 0x81 ++ [0x00] from rfl]
    rw [_loads_array_one, ihn g (by omega)]
    simp [nestArr, Nat.add_comm]

/-- C2: the source checks the depth against the limit 100, but every
recursive call passes the default depth 0, so decoding 101 nested
single-element arrays succeeds instead of failing with the recursion
limit error (and 100 nested arrays succeed as well). -/
theorem c2_depth_limit_dead :
    loads (List.replicate 101 0x81 ++ [0x00]) = .ok (nestArr 101) ∧
    loads (List.replicate 100 0x81 ++ [0x00]) = .ok (nestArr 100) := by
  constructor
  · rw [loads, nest_decode 101 _ (by simp)]
  · rw [loads, nest_decode 100 _ (by simp)]

/-- C3: the valid encoding of the byte string 0x61 0x62 is 0x42 0x61
0x62, and decoding its 2-byte proper prefix does not fail: the Python
slice silently clamps and the decoder returns the truncated byte string
0x61 as a value. -/
theorem c3_truncation_returns_value :
    dumps (.bytes [0x61, 0x62]) = .ok [0x42, 0x61, 0x62] ∧
    loads [0x42, 0x61] = .ok (.bytes [0x61]) := by
  constructor
  · simp [dumps, _encode_type_num]
  · rw [loads]
    have htb : ([0x42, 0x61] : List Nat)[0]? = some 0x42 := rfl
    have hta : _tag_aux [0x42, 0x61] 0x42 = .ok (0x40, 2, some 2, 1) := rfl
    rw [_loads_case_bytes ([0x42, 0x61] : List Nat).length [0x42, 0x61]
      false 0x42 2 1 (some 2) htb (by norm_num) hta]
    simp [loads_bytes]

/-- C10: the bignum byte conversion produces the empty byte string
exactly for zero, never a leading zero byte, and accumulating the bytes
back yields the original number. -/
theorem c10_bignum_bytes : ∀ (n : Nat),
    _bytes_to_biguint (_dumps_bignum_to_bytearray n) = n ∧
    (_dumps_bignum_to_bytearray n = [] ↔ n = 0) ∧
    (∀ (b : Nat) (bs : List Nat),
      _dumps_bignum_to_bytearray n = b :: bs → b ≠ 0) := fun n =>
  ⟨_bytes_to_biguint_bignum n, _dumps_bignum_to_bytearray_nil_iff n,
    fun b bs h => _dumps_bignum_to_bytearray_head_ne_zero n b bs h⟩

theorem c10_bignum_bytes_witness :
    _bytes_to_biguint (_dumps_bignum_to_bytearray 256) = 256 ∧
    (1 : Nat) ≠ 0 :=
  ⟨(c10_bignum_bytes 256).1,
    (c10_bignum_bytes 256).2.2 1 [0]
      (by simp [_dumps_bignum_to_bytearray])⟩

/-- C5: the encoder picks the minimal header width at every boundary:
23 in one byte, 24 in two, the 255 to 256, 65535 to 65536 and 2^32-1 to
2^32 crossings, the single-byte encoding 0x20 of -1, and the -24 to -25
inline versus one-byte-follows crossing; in general the header length is
the smallest width class that holds the auxiliary value. -/
theorem c5_minimal_width :
    (∀ (t val : Nat) (h : List Nat), t % 32 = 0 → t ≤ 192 →
      val ≤ 0xffffffffffffffff →
      _encode_type_num t val = .ok h →
      h.length = if val ≤ 23 then 1 else if val ≤ 0xff then 2
        else if val ≤ 0xffff then 3 else if val ≤ 0xffffffff then 5
        else 9) ∧
    dumps (.int 23) = .ok [0x17] ∧
    dumps (.int 24) = .ok [0x18, 0x18] ∧
    dumps (.int 255) = .ok [0x18, 0xFF] ∧
    dumps (.int 256) = .ok [0x19, 0x01, 0x00] ∧
    dumps (.int 65535) = .ok [0x19, 0xFF, 0xFF] ∧
    dumps (.int 65536) = .ok [0x1A, 0x00, 0x01, 0x00, 0x00] ∧
    dumps (.int 4294967295) = .ok [0x1A, 0xFF, 0xFF, 0xFF, 0xFF] ∧
    dumps (.int 4294967296) =
      .ok [0x1B, 0x00, 0x00, 0x00, 0x01, 0x00, 0x00, 0x00, 0x00] ∧
    dumps (.int (-1)) = .ok [0x20] ∧
    dumps (.int (-24)) = .ok [0x37] ∧
    dumps (.int (-25)) = .ok [0x38, 0x18] := by
  refine ⟨?_, ?_, ?_, ?_, ?_, ?_, ?_, ?_, ?_, ?_, ?_, ?_⟩
  · intro t val h hm ht hv he
    rw [_encode_type_num] at he
    by_cases c1 : val ≤ 23
    · rw [if_pos c1] at he
      injection he with he2; subst he2
      simp [c1]
    · rw [if_neg c1] at he
      by_cases c2 : val ≤ 0xff
      · rw [if_pos c2] at he
        injection he with he2; subst he2
        simp [c1, c2]
      · rw [if_neg c2] at he
        by_cases c3 : val ≤ 0xffff
        · rw [if_pos c3] at he
          injection he with he2; subst he2
          simp [c1, c2, c3]
        · rw [if_neg c3] at he
          by_cases c4 : val ≤ 0xffffffff
          · rw [if_pos c4] at he
            injection he with he2; subst he2
            simp [c1, c2, c3, c4]
          · rw [if_neg c4, if_pos hv] at he
            injection he with he2; subst he2
            simp [c1, c2, c3, c4]
  · simp [dumps, dumps_int]
  · simp [dumps, dumps_int]
  · simp [dumps, dumps_int]
  · simp [dumps, dumps_int]
  · simp [dumps, dumps_int]
  · simp [dumps, dumps_int]
  · simp [dumps, dumps_int]
  · simp [dumps, dumps_int]
  · simp [dumps, dumps_int, _encode_type_num]
  · simp [dumps, dumps_int, _encode_type_num]
  · simp [dumps, dumps_int, _encode_type_num]

theorem c5_minimal_width_witness :
    ([0x19, 0x01, 0x2C] : List Nat).length =
      if (300 : Nat) ≤ 23 then 1 else if (300 : Nat) ≤ 0xff then 2
      else if (300 : Nat) ≤ 0xffff then 3
      else if (300 : Nat) ≤ 0xffffffff then 5 else 9 :=
  c5_minimal_width.1 0 300 [0x19, 0x01, 0x2C] (by norm_num) (by norm_num)
    (by norm_num) (by simp [_encode_type_num])

theorem _loads_case_f16 (fuel : Nat) (data : List Nat) (rt : Bool)
    (htb : data[0]? = some 0xF9) :
    _loads (fuel + 1) data 0 rt = .error .unsupportedFloat16 := by
  rw [_loads]
  simp [byteAt, htb, _MAX_DEPTH]

theorem _loads_case_f32 (fuel : Nat) (data : List Nat) (rt : Bool)
    (b1 b2 b3 b4 : Nat) (htb : data[0]? = some 0xFA)
    (h1 : data[1]? = some b1) (h2 : data[2]? = some b2)
    (h3 : data[3]? = some b3) (h4 : data[4]? = some b4) :
    _loads (fuel + 1) data 0 rt = .ok (.float32 [b1, b2, b3, b4], 5) := by
  rw [_loads]
  simp [byteAt, htb, h1, h2, h3, h4, _MAX_DEPTH]

theorem _loads_case_f64 (fuel : Nat) (data : List Nat) (rt : Bool)
    (b1 b2 b3 b4 b5 b6 b7 b8 : Nat) (htb : data[0]? = some 0xFB)
    (h1 : data[1]? = some b1) (h2 : data[2]? = some b2)
    (h3 : data[3]? = some b3) (h4 : data[4]? = some b4)
    (h5 : data[5]? = some b5) (h6 : data[6]? = some b6)
    (h7 : data[7]? = some b7) (h8 : data[8]? = some b8) :
    _loads (fuel + 1) data 0 rt =
      .ok (.float64 [b1, b2, b3, b4, b5, b6, b7, b8], 9) := by
  rw [_loads]
  simp [byteAt, htb, h1, h2, h3, h4, h5, h6, h7, h8, _MAX_DEPTH]

theorem _loads_case_simple (fuel : Nat) (data : List Nat) (rt : Bool)
    (tb x br : Nat) (aux : Option Nat) (res : Value)
    (htb : data[0]? = some tb)
    (hres : (tb = 0xF5 ∧ res = .bool true) ∨ (tb = 0xF4 ∧ res = .bool false)
      ∨ (tb = 0xF6 ∧ res = .null) ∨ (tb = 0xF7 ∧ res = .null))
    (hta : _tag_aux data tb = .ok (0xE0, x, aux, br)) :
    _loads (fuel + 1) data 0 rt = .ok (res, br) := by
  rw [_loads]
  rcases hres with ⟨rfl, rfl⟩ | ⟨rfl, rfl⟩ | ⟨rfl, rfl⟩ | ⟨rfl, rfl⟩ <;>
    simp [byteAt, htb, hta, _MAX_DEPTH]

theorem _loads_case_simple_bad (fuel : Nat) (data : List Nat) (rt : Bool)
    (tb x br : Nat) (aux : Option Nat) (htb : data[0]? = some tb)
    (h9 : tb ≠ 0xF9) (hA : tb ≠ 0xFA) (hB : tb ≠ 0xFB)
    (h4 : tb ≠ 0xF4) (h5 : tb ≠ 0xF5) (h6 : tb ≠ 0xF6) (h7 : tb ≠ 0xF7)
    (hta : _tag_aux data tb = .ok (0xE0, x, aux, br)) :
    _loads (fuel + 1) data 0 rt = .error .malformed := by
  rw [_loads]
  simp [byteAt, htb, h9, hA, hB, h4, h5, h6, h7, hta, _MAX_DEPTH]

theorem _loads_case_taux_error (fuel : Nat) (data : List Nat) (rt : Bool)
    (tb : Nat) (e : DErr) (htb : data[0]? = some tb)
    (h9 : tb ≠ 0xF9) (hA : tb ≠ 0xFA) (hB : tb ≠ 0xFB)
    (hta : _tag_aux data tb = .error e) :
    _loads (fuel + 1) data 0 rt = .error e := by
  rw [_loads]
  simp [byteAt, htb, h9, hA, hB, hta, _MAX_DEPTH]

/-- C6: the major-type-7 byte 0xF4 decodes to false, 0xF5 to true, 0xF6
to null, 0xF7 (undefined) also to null; 0xF9 (16-bit float) fails with
the unsupported-feature error; 0xFA and 0xFB parse the following 4 or 8
raw bytes as the float payload, consuming 5 or 9 bytes; every other
major-type-7 leading byte fails with the malformed-input error. -/
theorem c6_major_type_7 :
    loads [0xF4] = .ok (.bool false) ∧
    loads [0xF5] = .ok (.bool true) ∧
    loads [0xF6] = .ok .null ∧
    loads [0xF7] = .ok .null ∧
    (∀ (rest : List Nat),
      loads (0xF9 :: rest) = .error .unsupportedFloat16) ∧
    (∀ (b1 b2 b3 b4 : Nat) (rest : List Nat) (f : Nat),
      _loads (f + 1) (0xFA :: b1 :: b2 :: b3 :: b4 :: rest) 0 false =
        .ok (.float32 [b1, b2, b3, b4], 5)) ∧
    (∀ (b1 b2 b3 b4 b5 b6 b7 b8 : Nat) (rest : List Nat) (f : Nat),
      _loads (f + 1)
        (0xFB :: b1 :: b2 :: b3 :: b4 :: b5 :: b6 :: b7 :: b8 :: rest)
        0 false = .ok (.float64 [b1, b2, b3, b4, b5, b6, b7, b8], 9)) ∧
    (∀ (tb : Nat) (rest : List Nat), 0xE0 ≤ tb → tb ≤ 0xFF →
      tb ≠ 0xF4 → tb ≠ 0xF5 → tb ≠ 0xF6 → tb ≠ 0xF7 →
      tb ≠ 0xF9 → tb ≠ 0xFA → tb ≠ 0xFB →
      loads (tb :: rest) = .error .malformed) := by
  refine ⟨?_, ?_, ?_, ?_, ?_, ?_, ?_, ?_⟩
  · rw [loads, _loads_case_simple ([0xF4] : List Nat).length [0xF4] false
      0xF4 20 1 (some 20) (.bool false) rfl
      (Or.inr (Or.inl (And.intro rfl rfl))) rfl]
  · rw [loads, _loads_case_simple ([0xF5] : List Nat).length [0xF5] false
      0xF5 21 1 (some 21) (.bool true) rfl
      (Or.inl (And.intro rfl rfl)) rfl]
  · rw [loads, _loads_case_simple ([0xF6] : List Nat).length [0xF6] false
      0xF6 22 1 (some 22) .null rfl
      (Or.inr (Or.inr (Or.inl (And.intro rfl rfl)))) rfl]
  · rw [loads, _loads_case_simple ([0xF7] : List Nat).length [0xF7] false
      0xF7 23 1 (some 23) .null rfl
      (Or.inr (Or.inr (Or.inr (And.intro rfl rfl)))) rfl]
  · intro rest
    rw [loads, _loads_case_f16 ((0xF9 :: rest) : List Nat).length
      (0xF9 :: rest) false (by simp)]
  · intro b1 b2 b3 b4 rest f
    exact _loads_case_f32 f (0xFA :: b1 :: b2 :: b3 :: b4 :: rest) false
      b1 b2 b3 b4 (by simp) (by simp) (by simp) (by simp) (by simp)
  · intro b1 b2 b3 b4 b5 b6 b7 b8 rest f
    exact _loads_case_f64 f
      (0xFB :: b1 :: b2 :: b3 :: b4 :: b5 :: b6 :: b7 :: b8 :: rest) false
      b1 b2 b3 b4 b5 b6 b7 b8 (by simp) (by simp) (by simp) (by simp)
      (by simp) (by simp) (by simp) (by simp) (by simp)
  · intro tb rest hlo hhi n4 n5 n6 n7 n9 nA nB
    rw [loads]
    have htb : ((tb :: rest) : List Nat)[0]? = some tb := by simp
    have h224 : tb / 32 * 32 = 0xE0 := by omega
    by_cases hc1 : tb % 32 ≤ 23
    · have hta : _tag_aux (tb :: rest) tb =
          .ok (0xE0, tb % 32, some (tb % 32), 1) := by
        simp [_tag_aux, hc1, h224]
      rw [_loads_case_simple_bad ((tb :: rest) : List Nat).length
        (tb :: rest) false tb (tb % 32) 1 (some (tb % 32)) htb n9 nA nB
        n4 n5 n6 n7 hta]
    · by_cases hc2 : tb % 32 = 24
      · cases rest with
        | nil =>
          have hta : _tag_aux [tb] tb = .error .malformed := by
            simp [_tag_aux, hc1, hc2, byteAt]
          rw [_loads_case_taux_error (([tb] : List Nat)).length [tb] false
            tb .malformed htb n9 nA nB hta]
        | cons r rs =>
          have hta : _tag_aux (tb :: r :: rs) tb =
              .ok (0xE0, tb % 32, some r, 2) := by
            simp [_tag_aux, hc1, hc2, h224, byteAt]
          rw [_loads_case_simple_bad ((tb :: r :: rs) : List Nat).length
            (tb :: r :: rs) false tb (tb % 32) 2 (some r) htb n9 nA nB
            n4 n5 n6 n7 hta]
      · by_cases hc3 : tb % 32 = 31
        · have hta : _tag_aux (tb :: rest) tb =
              .ok (0xE0, tb % 32, none, 1) := by
            simp [_tag_aux, hc1, hc2, hc3, h224]
          rw [_loads_case_simple_bad ((tb :: rest) : List Nat).length
            (tb :: rest) false tb (tb % 32) 1 none htb n9 nA nB
            n4 n5 n6 n7 hta]
        · have hc25 : tb % 32 ≠ 25 := by omega
          have hc26 : tb % 32 ≠ 26 := by omega
          have hc27 : tb % 32 ≠ 27 := by omega
          have hta : _tag_aux (tb :: rest) tb = .error .malformed := by
            simp [_tag_aux, hc1, hc2, hc3, hc25, hc26, hc27]
          rw [_loads_case_taux_error ((tb :: rest) : List Nat).length
            (tb :: rest) false tb .malformed htb n9 nA nB hta]

theorem c6_major_type_7_witness :
    loads [0xF9] = .error .unsupportedFloat16 ∧
    _loads (0 + 1) [0xFA, 1, 2, 3, 4] 0 false =
      .ok (.float32 [1, 2, 3, 4], 5) ∧
    _loads (0 + 1) [0xFB, 1, 2, 3, 4, 5, 6, 7, 8] 0 false =
      .ok (.float64 [1, 2, 3, 4, 5, 6, 7, 8], 9) ∧
    loads [0xF0] = .error .malformed ∧
    loads [0xF8, 0x20] = .error .malformed :=
  ⟨c6_major_type_7.2.2.2.2.1 [],
    c6_major_type_7.2.2.2.2.2.1 1 2 3 4 [] 0,
    c6_major_type_7.2.2.2.2.2.2.1 1 2 3 4 5 6 7 8 [] 0,
    c6_major_type_7.2.2.2.2.2.2.2 0xF0 [] (by norm_num) (by norm_num)
      (by norm_num) (by norm_num) (by norm_num) (by norm_num) (by norm_num)
      (by norm_num) (by norm_num),
    c6_major_type_7.2.2.2.2.2.2.2 0xF8 [0x20] (by norm_num) (by norm_num)
      (by norm_num) (by norm_num) (by norm_num) (by norm_num) (by norm_num)
      (by norm_num) (by norm_num)⟩

/-- C7: integers beyond unsigned 64-bit range are encoded under the
bignum tags (2 for nonnegative over a byte string of the value, 3 for
negative over a byte string of -1-n) and decode back to themselves, and
the bytes C2 42 01 00 decode to the integer 256. -/
theorem c7_bignum :
    (∀ (m : Int) (bs : List Nat), (2 : Int) ^ 64 - 1 < m →
      dumps (.int m) = .ok bs →
      (∃ h2, _encode_type_num 0x40
          (_dumps_bignum_to_bytearray m.toNat).length = .ok h2 ∧
        bs = 0xC2 :: h2 ++ _dumps_bignum_to_bytearray m.toNat) ∧
      loads bs = .ok (.int m)) ∧
    (∀ (m : Int) (bs : List Nat), m ≤ -(2 : Int) ^ 64 - 1 →
      dumps (.int m) = .ok bs →
      (∃ h2, _encode_type_num 0x40
          (_dumps_bignum_to_bytearray (-1 - m).toNat).length = .ok h2 ∧
        bs = 0xC3 :: h2 ++ _dumps_bignum_to_bytearray (-1 - m).toNat) ∧
      loads bs = .ok (.int m)) ∧
    loads [0xC2, 0x42, 0x01, 0x00] = .ok (.int 256) := by
  refine ⟨?_, ?_, ?_⟩
  · intro m bs hbig hd
    have hload : loads bs = .ok (.int m) :=
      loads_dumps (.int m) bs (by simp [WFb]) hd
    rw [dumps] at hd
    have hpos : 0 ≤ m := by omega
    have hbig2 : 0xffffffffffffffff < m.toNat := by omega
    obtain ⟨h2, hh2, hbs⟩ := dumps_int_big m bs hpos hbig2 hd
    exact ⟨⟨h2, hh2, by rw [hbs]⟩, hload⟩
  · intro m bs hbig hd
    have hload : loads bs = .ok (.int m) :=
      loads_dumps (.int m) bs (by simp [WFb]) hd
    rw [dumps, dumps_int, if_neg (by omega)] at hd
    have hbig2 : 0xffffffffffffffff < (-1 - m).toNat := by omega
    obtain ⟨h2, hh2, hbs⟩ :=
      _encode_type_num_negint_big ((-1 - m).toNat) bs hbig2 hd
    exact ⟨⟨h2, hh2, by rw [hbs]⟩, hload⟩
  · rw [loads]
    have htb : ([0xC2, 0x42, 0x01, 0x00] : List Nat)[0]? = some 0xC2 := rfl
    have hta : _tag_aux [0xC2, 0x42, 0x01, 0x00] 0xC2 =
      .ok (0xC0, 2, some 2, 1) := rfl
    rw [_loads_case_tag ([0xC2, 0x42, 0x01, 0x00] : List Nat).length
      [0xC2, 0x42, 0x01, 0x00] false 0xC2 2 1 (some 2) htb (by norm_num) hta]
    rw [show ([0xC2, 0x42, 0x01, 0x00] : List Nat).drop 1 =
      [0x42] ++ ([0x01, 0x00] ++ []) from rfl]
    rw [rt_bytes_item ([0xC2, 0x42, 0x01, 0x00] : List Nat).length [0x42]
      [0x01, 0x00] [] (by simp [_encode_type_num]) (by simp)]
    simp [tagify, _bytes_to_biguint]

theorem c7_bignum_witness :
    ((∃ h2, _encode_type_num 0x40
        (_dumps_bignum_to_bytearray
          ((18446744073709551616 : Int)).toNat).length = .ok h2 ∧
      [0xC2, 0x49, 0x01, 0x00, 0x00, 0x00, 0x00, 0x00, 0x00, 0x00, 0x00] =
        0xC2 :: h2 ++ _dumps_bignum_to_bytearray
          ((18446744073709551616 : Int)).toNat) ∧
    loads [0xC2, 0x49, 0x01, 0x00, 0x00, 0x00, 0x00, 0x00, 0x00, 0x00,
      0x00] = .ok (.int 18446744073709551616)) ∧
    ((∃ h2, _encode_type_num 0x40
        (_dumps_bignum_to_bytearray
          (-1 - (-18446744073709551617 : Int)).toNat).length = .ok h2 ∧
      [0xC3, 0x49, 0x01, 0x00, 0x00, 0x00, 0x00, 0x00, 0x00, 0x00, 0x00] =
        0xC3 :: h2 ++ _dumps_bignum_to_bytearray
          (-1 - (-18446744073709551617 : Int)).toNat) ∧
    loads [0xC3, 0x49, 0x01, 0x00, 0x00, 0x00, 0x00, 0x00, 0x00, 0x00,
      0x00] = .ok (.int (-18446744073709551617))) :=
  ⟨c7_bignum.1 18446744073709551616
      [0xC2, 0x49, 0x01, 0x00, 0x00, 0x00, 0x00, 0x00, 0x00, 0x00, 0x00]
      (by norm_num)
      (by simp [dumps, dumps_int, _encode_type_num,
        _dumps_bignum_to_bytearray]),
    c7_bignum.2.1 (-18446744073709551617)
      [0xC3, 0x49, 0x01, 0x00, 0x00, 0x00, 0x00, 0x00, 0x00, 0x00, 0x00]
      (by norm_num)
      (by simp [dumps, dumps_int, _encode_type_num,
        _dumps_bignum_to_bytearray])⟩

/-- C8: the definite-length path of loads_bytes takes exactly aux
payload bytes directly; the indefinite-length chunk loop, however,
reads its chunk byte without ord, so it raises TypeError on the first
chunk regardless of its content (and IndexError, modeled as malformed,
on an exhausted buffer).  In particular decoding the well-formed
indefinite-length byte string 5F 41 AA FF fails with a type error
instead of concatenating the chunk: the chunking behavior the claim
describes never runs. -/
theorem c8_chunk_loop_broken :
    (∀ (payload rest : List Nat) (btag : Nat),
      loads_bytes (payload ++ rest) (some payload.length) btag =
        .ok (payload, payload.length)) ∧
    (∀ (btag tb : Nat) (rest : List Nat),
      loads_chunks btag (tb :: rest) = .error .typeError) ∧
    loads_chunks 0x40 [] = .error .malformed ∧
    loads [0x5F, 0x41, 0xAA, 0xFF] = .error .typeError := by
  refine ⟨?_, ?_, ?_, ?_⟩
  · intro payload rest btag
    simp [loads_bytes, List.take_left]
  · intro btag tb rest
    simp [loads_chunks, byteAt]
  · simp [loads_chunks, byteAt]
  · rw [loads]
    have htb : ([0x5F, 0x41, 0xAA, 0xFF] : List Nat)[0]? = some 0x5F := rfl
    have hta : _tag_aux [0x5F, 0x41, 0xAA, 0xFF] 0x5F =
        .ok (0x40, 31, none, 1) := rfl
    rw [_loads_case_bytes ([0x5F, 0x41, 0xAA, 0xFF] : List Nat).length
      [0x5F, 0x41, 0xAA, 0xFF] false 0x5F 31 1 none htb (by norm_num) hta]
    simp [loads_bytes, loads_chunks, byteAt]

end CborPy
